import Mathlib

/-!
Verification development for the rustic backup tool.

The first part embeds the CLI orchestration layer (`execute` in
src/commands/mod.rs) as a pure function over an abstract world of step
outcomes, recording a trace of the calls it makes.  The second part models
the repository engine (chunker, crypto, key manager, backup, prune, check)
from the specification, since the engine sources are not part of the
sources given here.
-/

namespace Rustic

/-- Global command-line options, mirroring `struct GlobalOpts` in
src/commands/mod.rs.  `log_level`, `log_file` and `progress_interval`
are abstracted to `Option Nat` (only presence and identity of the value
matter for the merge semantics). -/
structure GlobalOpts where
  dry_run : Bool
  log_level : Option Nat
  log_file : Option Nat
  no_progress : Bool
  progress_interval : Option Nat
  deriving DecidableEq, Repr

/-- Merge of the config-file profile into the command-line options,
mirroring the derived `Merge` impl on `GlobalOpts`: the two boolean flags
carry `merge(strategy = merge::bool::overwrite_false)` (the value is
replaced only when it is `false`), and the `Option` fields use the merge
crate's behaviour for `Option` (the value is replaced only when it is
`none`).  `cli` is the value parsed from command line and environment,
`cfg` the value from the config file, as in
`config_file.merge_into("global", &mut gopts)`. -/
def GlobalOpts.mergeOpts (cli cfg : GlobalOpts) : GlobalOpts where
  dry_run := if cli.dry_run then cli.dry_run else cfg.dry_run
  log_level := match cli.log_level with
    | some v => some v
    | none => cfg.log_level
  log_file := match cli.log_file with
    | some v => some v
    | none => cfg.log_file
  no_progress := if cli.no_progress then cli.no_progress else cfg.no_progress
  progress_interval := match cli.progress_interval with
    | some v => some v
    | none => cfg.progress_interval

/-- Subcommands of the CLI, mirroring `enum Command` in src/commands/mod.rs. -/
inductive Cmd where
  | backup
  | cat
  | config
  | completions
  | check
  | copy
  | diff
  | dump
  | forget
  | init
  | key
  | list
  | ls
  | mergeSnaps
  | snapshots
  | selfUpdate
  | prune
  | restore
  | repair
  | repoinfo
  | tag
  deriving DecidableEq, Repr

/-- Events recorded while `execute` runs, one per call it makes, in call
order.  `initRun ids` carries the Config ids passed to `init::execute`;
`engineRun c s` records dispatching subcommand `c` to its engine
operation, with `s` the progress-display behaviour the run exhibits. -/
inductive Ev where
  | configLoad
  | loggerInit
  | selfUpdateRun
  | completionsRun
  | repoMerge
  | repoNew
  | listConfig
  | passwordRead
  | initRun (ids : List Nat)
  | openRepo
  | engineRun (c : Cmd) (showProgress : Bool)
  deriving DecidableEq, Repr

/-- The process-wide mutable statics `NO_PROGRESS` and `PROGRESS_INTERVAL`
written by `execute` (src/commands/mod.rs lines 207-215). -/
structure Globals where
  no_progress : Bool
  progress_interval : Option Nat
  deriving DecidableEq, Repr

/-- Initial value of the process-wide statics before `execute` touches
them: progress enabled, default interval. -/
def Globals.initial : Globals :=
  { no_progress := false, progress_interval := none }

/-- The statics after the two conditional writes in `execute`:
`NO_PROGRESS` is set exactly when `gopts.no_progress` holds, and
`PROGRESS_INTERVAL` is set exactly when `gopts.progress_interval` is
present. -/
def setGlobals (g : GlobalOpts) : Globals :=
  let s₁ := if g.no_progress then
    { Globals.initial with no_progress := true }
  else Globals.initial
  match g.progress_interval with
  | some d => { s₁ with progress_interval := some d }
  | none => s₁

/-- Modelled from the spec: the progress-bar helper (src/commands/helpers.rs,
not among the sources here) reads the process-wide `NO_PROGRESS` toggle and
shows progress bars exactly when the toggle is off, per the flag's
documentation "Don't show any progress bar". -/
def showsProgress (g : Globals) : Bool := !g.no_progress

/-- Outcomes of the fallible steps `execute` performs, one field per call
site, so `execute` itself is a pure function of this world.  `engineRes c d`
is the result of subcommand `c`'s engine operation when invoked with
dry-run flag `d` (the only `GlobalOpts` field that feeds engine results,
for the subcommands that receive `gopts` at all). -/
structure World where
  configLoad : Except Nat Unit
  loggerInit : Except Nat Unit
  selfUpdateRes : Except Nat Unit
  repoMerge : Except Nat Unit
  repoNew : Except Nat Unit
  configIds : Except Nat (List Nat)
  password : Except Nat Nat
  initRes : Except Nat Unit
  openRes : Except Nat Unit
  engineRes : Cmd → Bool → Except Nat Unit

/-- Whether a subcommand's dispatch arm passes `gopts` to the engine
operation (the arms for backup, copy, forget, prune, restore, repair and
tag in src/commands/mod.rs lines 246-266), and with it the dry-run flag. -/
def dryFlag (c : Cmd) (g : GlobalOpts) : Bool :=
  match c with
  | .backup => g.dry_run
  | .copy => g.dry_run
  | .forget => g.dry_run
  | .prune => g.dry_run
  | .restore => g.dry_run
  | .repair => g.dry_run
  | .tag => g.dry_run
  | _ => false

/-- Shallow embedding of `pub fn execute()` (src/commands/mod.rs lines
169-270): load and merge the config profile, start the logger, write the
progress statics, return early for self-update and completions, merge the
repository options and construct the `Repository`, run `init` against the
listed Config ids without opening, and otherwise open the repository and
dispatch the subcommand.  Returns the result, the trace of calls made, and
the final value of the process-wide statics. -/
def execute (w : World) (cli cfg : GlobalOpts) (cmd : Cmd) :
    Except Nat Unit × List Ev × Globals :=
  match w.configLoad with
  | .error e => (.error e, [.configLoad], Globals.initial)
  | .ok _ =>
    let gopts := GlobalOpts.mergeOpts cli cfg
    match w.loggerInit with
    | .error e => (.error e, [.configLoad, .loggerInit], Globals.initial)
    | .ok _ =>
      let g := setGlobals gopts
      if cmd = .selfUpdate then
        match w.selfUpdateRes with
        | .error e => (.error e, [.configLoad, .loggerInit, .selfUpdateRun], g)
        | .ok _ => (.ok (), [.configLoad, .loggerInit, .selfUpdateRun], g)
      else if cmd = .completions then
        (.ok (), [.configLoad, .loggerInit, .completionsRun], g)
      else
        match w.repoMerge with
        | .error e => (.error e, [.configLoad, .loggerInit, .repoMerge], g)
        | .ok _ =>
          match w.repoNew with
          | .error e =>
            (.error e, [.configLoad, .loggerInit, .repoMerge, .repoNew], g)
          | .ok _ =>
            if cmd = .init then
              match w.configIds with
              | .error e =>
                (.error e,
                 [.configLoad, .loggerInit, .repoMerge, .repoNew, .listConfig], g)
              | .ok ids =>
                match w.password with
                | .error e =>
                  (.error e,
                   [.configLoad, .loggerInit, .repoMerge, .repoNew, .listConfig,
                    .passwordRead], g)
                | .ok _ =>
                  (w.initRes,
                   [.configLoad, .loggerInit, .repoMerge, .repoNew, .listConfig,
                    .passwordRead, .initRun ids], g)
            else
              match w.openRes with
              | .error e =>
                (.error e,
                 [.configLoad, .loggerInit, .repoMerge, .repoNew, .openRepo], g)
              | .ok _ =>
                (w.engineRes cmd (dryFlag cmd gopts),
                 [.configLoad, .loggerInit, .repoMerge, .repoNew, .openRepo,
                  .engineRun cmd (showsProgress g)], g)

/-- Modelled from the spec: ids are "a cryptographic content hash
(fixed-width digest) ... collision-free by construction" (spec §3).  The
engine sources are not among the sources here, so the digest is modelled
as an injective encoding of byte lists into naturals. -/
def encodeList : List Nat → Nat
  | [] => 0
  | b :: bs => Nat.pair b (encodeList bs) + 1

/-- Blob id of a plaintext content: "Identified by the hash of its
plaintext content" (spec §3). -/
def blobId (content : List Nat) : Nat := encodeList content

/-- Chunker parameters from the Config record: min/avg/max chunk size
(spec §6); the average size is realized as a boundary mask. -/
structure ChunkerParams where
  minSize : Nat
  maxSize : Nat
  mask : Nat
  deriving DecidableEq, Repr

/-- Rolling hash over the current chunk window. -/
def rollHash (window : List Nat) : Nat :=
  window.foldl (fun h b => (h * 31 + b) % 65536) 0

/-- Modelled from the spec §4.3 (the chunker sources are not among the
sources here): content-defined chunking declares a boundary when the
rolling hash matches a target pattern within a min/max size window; the
accumulated chunk is kept reversed while scanning. -/
def chunkAux (p : ChunkerParams) (cur : List Nat) : List Nat → List (List Nat)
  | [] => if cur.isEmpty then [] else [cur.reverse]
  | b :: bs =>
    let cur' := b :: cur
    if p.minSize ≤ cur'.length ∧
        (p.maxSize ≤ cur'.length ∨ rollHash cur' % (p.mask + 1) = 0) then
      cur'.reverse :: chunkAux p [] bs
    else
      chunkAux p cur' bs

/-- Chunk a whole byte stream, restartable per file (stateless across
files, spec §4.3). -/
def chunkContent (p : ChunkerParams) (c : List Nat) : List (List Nat) :=
  chunkAux p [] c

/-- The master encryption key (spec §4.2). -/
structure MasterKey where
  key : Nat
  deriving DecidableEq, Repr

/-- Modelled from the spec §4.2 (crypto sources not among the sources
here): the authentication tag of an authenticated encryption, a keyed
checksum of the ciphertext body. -/
def macTag (k : Nat) (body : List Nat) : Nat :=
  body.foldl (fun a b => a + b) 0 + k

/-- Modelled from the spec §4.2: authenticated encryption; the body is
the keystream-masked plaintext and the tag authenticates the body under
the key. -/
def encrypt (k : MasterKey) (m : List Nat) : List Nat × Nat :=
  let body := m.map (fun b => b ^^^ k.key % 256)
  (body, macTag k.key body)

/-- Modelled from the spec §4.2: authenticated decryption is
integrity-checked and fails (Corrupt) on tag mismatch. -/
def decrypt (k : MasterKey) (c : List Nat × Nat) : Option (List Nat) :=
  if macTag k.key c.1 = c.2 then some (c.1.map (fun b => b ^^^ k.key % 256))
  else none

/-- Modelled from the spec §4.2: the memory-hard salted key-derivation
function, abstracted to an injective function of password and salt. -/
def kdf (password salt : Nat) : MasterKey := ⟨Nat.pair password salt⟩

/-- Modelled from the spec §3: a Key record wraps the master key,
encrypted under a password-derived key; salt and KDF parameters are
stored alongside. -/
structure KeyRecord where
  salt : Nat
  wrapped : List Nat × Nat
  deriving DecidableEq, Repr

/-- Create the Key record written by `init`/`key add`: the master key
encrypted under the key derived from the given password and salt. -/
def makeKeyRecord (master password salt : Nat) : KeyRecord :=
  { salt := salt, wrapped := encrypt (kdf password salt) [master] }

/-- Attempt KDF-derive + decrypt on one Key record (spec §4.2). -/
def tryUnlockRecord (password : Nat) (r : KeyRecord) : Option Nat :=
  match decrypt (kdf password r.salt) r.wrapped with
  | some [m] => some m
  | _ => none

/-- Result of `unlock`: the master key, or `AuthenticationFailed`. -/
inductive UnlockResult where
  | ok (master : Nat)
  | authenticationFailed
  deriving DecidableEq, Repr

/-- Modelled from the spec §4.2: `unlock` scans all Key records,
attempting KDF-derive + decrypt on each until one succeeds; it fails with
`AuthenticationFailed` if none match. -/
def unlock (password : Nat) : List KeyRecord → UnlockResult
  | [] => .authenticationFailed
  | r :: rs =>
    match tryUnlockRecord password r with
    | some m => .ok m
    | none => unlock password rs

/-- Modelled from the spec §3: `key add` creates an additional Key record
wrapping the same master key under a new password. -/
def keyAdd (master password salt : Nat) (recs : List KeyRecord) :
    List KeyRecord :=
  recs ++ [makeKeyRecord master password salt]

/-- Modelled from the spec §3: `key remove` removes the Key records
unlockable by the given password. -/
def keyRemove (password : Nat) (recs : List KeyRecord) : List KeyRecord :=
  recs.filter (fun r => (tryUnlockRecord password r).isNone)

mutual
/-- A filesystem tree to back up: a file with byte content, or a
directory with a list of entries (the list is its own inductive so that
all recursion below is structural). -/
inductive FsTree where
  | file (content : List Nat)
  | dir (entries : FsList)
/-- A list of directory entries. -/
inductive FsList where
  | nil
  | cons (head : FsTree) (tail : FsList)
end

/-- Ids of the data blobs of one file's content, in order (spec §3: a
file Node carries "a list of data-blob ids (file content, in order)"). -/
def fileChunkIds (p : ChunkerParams) (c : List Nat) : List Nat :=
  (chunkContent p c).map blobId

mutual
/-- Modelled from the spec §4.6: deterministic, canonical serialization
of a Node, so identical directory states always hash identically.  A file
node serializes its chunk-id list; a directory node serializes to the id
of its tree blob (the serialized entry list). -/
def nodeSer (p : ChunkerParams) : FsTree → Nat
  | .file c => Nat.pair 0 (encodeList (fileChunkIds p c))
  | .dir ts => Nat.pair 1 (blobId (listSer p ts))
/-- Serializations of the nodes of a directory-entry list, in order. -/
def listSer (p : ChunkerParams) : FsList → List Nat
  | .nil => []
  | .cons t ts => nodeSer p t :: listSer p ts
end

mutual
/-- Modelled from the spec §4.6: the plaintexts of all blobs written for a
tree, bottom-up — the data chunks of every file plus one tree blob (the
serialized entry list) per directory. -/
def treeContents (p : ChunkerParams) : FsTree → List (List Nat)
  | .file c => chunkContent p c
  | .dir ts => listContents p ts ++ [listSer p ts]
/-- Blob plaintexts written for every entry of a directory-entry list. -/
def listContents (p : ChunkerParams) : FsList → List (List Nat)
  | .nil => []
  | .cons t ts => treeContents p t ++ listContents p ts
end

/-- All blobs written for a tree, each id paired with its plaintext;
every entry is content-addressed (id = hash of content, spec §3). -/
def treeBlobs (p : ChunkerParams) (t : FsTree) : List (Nat × List Nat) :=
  (treeContents p t).map (fun c => (blobId c, c))

/-- Repository state seen by backup/restore: the stored blobs (union of
Index and Pack Store: blob id to plaintext), the number of Pack objects
written, and the snapshot list (root ids). -/
structure EngineRepo where
  blobs : List (Nat × List Nat)
  packCount : Nat
  snaps : List Nat

/-- Look a blob up by id in the store. -/
def lookupBlob (st : List (Nat × List Nat)) (i : Nat) : Option (List Nat) :=
  (st.find? (fun e => e.1 == i)).map Prod.snd

/-- Modelled from the spec §4.6: backup writes each newly-seen tree/data
blob through the Pack Store, skipping any blob id already present in the
Index (the dedup check); if any new blob exists, the open pack is
finalized as one new Pack object; finally a Snapshot referencing the root
is persisted.  Returns the new state and the root Tree id. -/
def backup (p : ChunkerParams) (t : FsTree) (r : EngineRepo) :
    EngineRepo × Nat :=
  let bs := treeBlobs p t
  let newBlobs := bs.filter (fun e => (lookupBlob r.blobs e.1).isNone)
  let root := nodeSer p t
  ({ blobs := r.blobs ++ newBlobs,
     packCount := if newBlobs.isEmpty then r.packCount else r.packCount + 1,
     snaps := r.snaps ++ [root] }, root)

/-- Backup of a single file's content; returns the new state and the
chunk ids recorded in the snapshot's file Node. -/
def backupFile (p : ChunkerParams) (c : List Nat) (r : EngineRepo) :
    EngineRepo × List Nat :=
  ((backup p (.file c) r).1, fileChunkIds p c)

/-- Modelled from the spec §2: the read path resolves blob ids via the
Index, fetches pack segments and reassembles content in order; it fails
if any blob is missing. -/
def restoreContent (r : EngineRepo) : List Nat → Option (List Nat)
  | [] => some []
  | i :: is =>
    match lookupBlob r.blobs i, restoreContent r is with
    | some ch, some rest => some (ch ++ rest)
    | _, _ => none

/-- Honest blob store: every stored entry's id is the hash of its
content (true of every write the engine makes, spec §3). -/
def WfBlobs (st : List (Nat × List Nat)) : Prop :=
  ∀ e ∈ st, e.1 = blobId e.2

mutual
/-- Reference structure of one snapshot for prune: a tree node lists the
data-blob ids it references directly and its subtrees (the subtree list
is its own inductive so that all recursion below is structural). -/
inductive RTree where
  | node (dataBlobs : List Nat) (children : RList)
/-- A list of subtrees. -/
inductive RList where
  | nil
  | cons (head : RTree) (tail : RList)
end

mutual
/-- All blob ids transitively referenced from a tree (spec §3:
reachability is the transitive closure from the root Tree). -/
def RTree.blobs : RTree → List Nat
  | .node ds ts => ds ++ RList.blobs ts
/-- All blob ids transitively referenced from a list of subtrees. -/
def RList.blobs : RList → List Nat
  | .nil => []
  | .cons t ts => RTree.blobs t ++ RList.blobs ts
end

/-- Repository state seen by prune/check: live and deleted (forgotten)
snapshots' root trees, the Index (blob id to pack id) and the Pack files
(pack id and the blob ids each contains). -/
structure PruneState where
  liveSnaps : List RTree
  deadSnaps : List RTree
  index : List (Nat × Nat)
  packs : List (Nat × List Nat)

/-- Blob ids reachable from some live Snapshot (spec §4.7 step 2). -/
def reachableBlobs (st : PruneState) : List Nat :=
  (st.liveSnaps.map RTree.blobs).flatten

/-- Blob ids referenced from deleted Snapshots. -/
def deadBlobs (st : PruneState) : List Nat :=
  (st.deadSnaps.map RTree.blobs).flatten

/-- The still-reachable blob ids of one pack. -/
def liveOf (r : List Nat) (pk : Nat × List Nat) : List Nat :=
  pk.2.filter (fun b => decide (b ∈ r))

/-- Planning classification (spec §4.7 step 3): a pack is kept untouched
when the fraction of its blobs that are still reachable is at least the
configured threshold (percent). -/
def pruneKeepCond (threshold : Nat) (r : List Nat) (pk : Nat × List Nat) :
    Bool :=
  decide (threshold * pk.2.length ≤ 100 * (liveOf r pk).length)

/-- Packs not marked for outright deletion: those with at least one
reachable blob (spec §4.7 step 3: "packs with zero reachable blobs are
marked for outright deletion"). -/
def pruneSurvivors (r : List Nat) (packs : List (Nat × List Nat)) :
    List (Nat × List Nat) :=
  packs.filter (fun pk => !(liveOf r pk).isEmpty)

/-- The pack files present after prune: kept packs unchanged, and — when
any pack is marked for repack — one fresh pack (fresh id above every
existing one) holding the live blobs of all repacked packs
(spec §4.7 steps 3-5). -/
def pruneNewPacks (threshold : Nat) (r : List Nat)
    (packs : List (Nat × List Nat)) : List (Nat × List Nat) :=
  let keep := (pruneSurvivors r packs).filter (pruneKeepCond threshold r)
  let repack := (pruneSurvivors r packs).filter
    (fun pk => !pruneKeepCond threshold r pk)
  if repack.isEmpty then keep
  else keep ++ [((packs.map Prod.fst).foldr Nat.max 0 + 1,
    (repack.map (liveOf r)).flatten)]

/-- The new Index written by prune: the reachable blobs of every
surviving pack at their (possibly new) locations (spec §4.7 step 4). -/
def pruneIndex (r : List Nat) (packs : List (Nat × List Nat)) :
    List (Nat × Nat) :=
  (packs.map (fun pk => (liveOf r pk).map (fun b => (b, pk.1)))).flatten

/-- Modelled from the spec §4.7 (the prune sources are not among the
sources here): compute reachability from live Snapshots; delete packs
with zero reachable blobs; repack the live blobs of packs whose reachable
ratio is below the threshold (percent) into one fresh pack; keep the
rest; write a new Index holding exactly the reachable blobs at their new
locations (index-commit before pack-delete). -/
def prune (threshold : Nat) (st : PruneState) : PruneState :=
  { liveSnaps := st.liveSnaps
    deadSnaps := st.deadSnaps
    index := pruneIndex (reachableBlobs st)
      (pruneNewPacks threshold (reachableBlobs st) st.packs)
    packs := pruneNewPacks threshold (reachableBlobs st) st.packs }

/-- Look a blob's pack up in the Index. -/
def lookupIdx (idx : List (Nat × Nat)) (b : Nat) : Option Nat :=
  (idx.find? (fun e => e.1 == b)).map Prod.snd

/-- Whether an Index entry resolves: some pack with the recorded id
contains the blob. -/
def resolves (packs : List (Nat × List Nat)) (b pid : Nat) : Bool :=
  packs.any (fun pk => pk.1 == pid && pk.2.contains b)

/-- Whether one blob passes `check`: it has an Index entry and the entry
resolves to a pack segment holding it (spec §4.8). -/
def blobOk (st : PruneState) (b : Nat) : Bool :=
  match lookupIdx st.index b with
  | some pid => resolves st.packs b pid
  | none => false

/-- Modelled from the spec §4.8: `check` is read-only and reports every
reachable blob that has no resolving Index entry (the missing-blob
errors for live Snapshots). -/
def checkErrors (st : PruneState) : List Nat :=
  (reachableBlobs st).filter (fun b => !blobOk st b)

/-- Single-master key store: every Key record that decrypts at all
yields the repository's one master key (spec §3: multiple Key records may
coexist, all unlocking the same master key). -/
def SingleMaster (M : Nat) (recs : List KeyRecord) : Prop :=
  ∀ r ∈ recs, ∀ pw m, tryUnlockRecord pw r = some m → m = M

/-- Sample command-line options: all flags off, nothing set. -/
def cliBase : GlobalOpts :=
  { dry_run := false, log_level := none, log_file := none,
    no_progress := false, progress_interval := none }

/-- Sample command-line options with the no-progress knob set. -/
def cliNP : GlobalOpts := { cliBase with no_progress := true }

/-- Sample command-line options with dry-run set. -/
def cliDry : GlobalOpts := { cliBase with dry_run := true }

/-- Sample command-line options with dry-run and a log level set. -/
def cliW : GlobalOpts := { cliBase with dry_run := true, log_level := some 3 }

/-- Sample config-file profile that tries to override everything. -/
def cfgW : GlobalOpts :=
  { dry_run := false, log_level := some 5, log_file := some 2,
    no_progress := true, progress_interval := some 9 }

/-- Sample world in which every step succeeds. -/
def w0 : World :=
  { configLoad := .ok (), loggerInit := .ok (), selfUpdateRes := .ok (),
    repoMerge := .ok (), repoNew := .ok (), configIds := .ok [3],
    password := .ok 0, initRes := .ok (), openRes := .ok (),
    engineRes := fun _ _ => .ok () }

/-- Sample world in which `Repository::open` fails. -/
def wOpenFail : World := { w0 with openRes := .error 42 }

/-- Sample world in which the prune engine operation fails. -/
def wEngineFail : World :=
  { w0 with engineRes := fun c _ => if c = .prune then .error 7 else .ok () }

/-- Sample chunker parameters. -/
def pW : ChunkerParams := { minSize := 1, maxSize := 4, mask := 0 }

/-- The empty repository. -/
def repoW : EngineRepo := { blobs := [], packCount := 0, snaps := [] }

/-- Sample key store: master key 5 wrapped under password 1 with salt 7. -/
def recsW : List KeyRecord := [makeKeyRecord 5 1 7]

/-- Sample prune state: one live snapshot referencing blobs 1 and 2, one
deleted snapshot referencing blobs 2 and 3, blob 3 only in pack 11. -/
def stW : PruneState :=
  { liveSnaps := [.node [1, 2] .nil],
    deadSnaps := [.node [2, 3] .nil],
    index := [(1, 10), (2, 10), (3, 11)],
    packs := [(10, [1, 2]), (11, [3])] }

theorem chunkAux_flatten (p : ChunkerParams) (rest : List Nat) :
    ∀ cur, (chunkAux p cur rest).flatten = cur.reverse ++ rest := by
  induction rest with
  | nil =>
    intro cur
    cases cur <;> simp [chunkAux]
  | cons b bs ih =>
    intro cur
    by_cases h : p.minSize ≤ (b :: cur).length ∧
        (p.maxSize ≤ (b :: cur).length ∨ rollHash (b :: cur) % (p.mask + 1) = 0)
    · rw [chunkAux, if_pos h]
      simp [ih]
    · rw [chunkAux, if_neg h]
      simp [ih]

theorem chunkContent_flatten (p : ChunkerParams) (c : List Nat) :
    (chunkContent p c).flatten = c := by
  simpa using chunkAux_flatten p c []

theorem encodeList_inj : ∀ {xs ys : List Nat},
    encodeList xs = encodeList ys → xs = ys := by
  intro xs
  induction xs with
  | nil =>
    intro ys h
    cases ys with
    | nil => rfl
    | cons b bs => simp [encodeList] at h
  | cons a as ih =>
    intro ys h
    cases ys with
    | nil => simp [encodeList] at h
    | cons b bs =>
      simp only [encodeList, Nat.add_right_cancel_iff] at h
      obtain ⟨h₁, h₂⟩ := Nat.pair_eq_pair.mp h
      rw [h₁, ih h₂]

theorem blobId_inj {xs ys : List Nat} (h : blobId xs = blobId ys) : xs = ys :=
  encodeList_inj h

theorem decrypt_encrypt (k : MasterKey) (m : List Nat) :
    decrypt k (encrypt k m) = some m := by
  have h₁ : ((fun b => b ^^^ k.key % 256) ∘ fun b => b ^^^ k.key % 256)
      = fun b : Nat => b := by
    funext b
    exact Nat.xor_cancel_right (k.key % 256) b
  simp [decrypt, encrypt, List.map_map, h₁]

theorem findPair_isSome {α : Type} {st : List (Nat × α)} {i : Nat} :
    ((st.find? (fun e => e.1 == i)).map Prod.snd).isSome ↔ ∃ e ∈ st, e.1 = i := by
  rw [Option.isSome_map', List.find?_isSome]
  simp

theorem findPair_eq_some {α : Type} {st : List (Nat × α)} {i : Nat} {v : α}
    (h : (st.find? (fun e => e.1 == i)).map Prod.snd = some v) : (i, v) ∈ st := by
  rcases hf : st.find? (fun e => e.1 == i) with _ | e
  · rw [hf] at h
    simp at h
  · rw [hf, Option.map_some'] at h
    have hm := List.mem_of_find?_eq_some hf
    have hp := List.find?_some hf
    simp only [beq_iff_eq] at hp
    obtain ⟨e₁, e₂⟩ := e
    simp only at h hp
    have h₂ : e₂ = v := by injection h
    rw [← hp, ← h₂]
    exact hm

theorem findPair_eq_none {α : Type} {st : List (Nat × α)} {i : Nat}
    (h : ∀ e ∈ st, e.1 ≠ i) :
    (st.find? (fun e => e.1 == i)).map Prod.snd = none := by
  have hn : st.find? (fun e => e.1 == i) = none := by
    rw [List.find?_eq_none]
    intro e he
    simp [h e he]
  rw [hn]
  rfl

theorem lookupBlob_isSome {st : List (Nat × List Nat)} {i : Nat} :
    (lookupBlob st i).isSome ↔ ∃ e ∈ st, e.1 = i := findPair_isSome

theorem lookupBlob_eq_some {st : List (Nat × List Nat)} {i : Nat}
    {v : List Nat} (h : lookupBlob st i = some v) : (i, v) ∈ st :=
  findPair_eq_some h

theorem lookupBlob_wf {st : List (Nat × List Nat)} (hwf : WfBlobs st)
    {i : Nat} {v : List Nat} (h : lookupBlob st i = some v) : i = blobId v :=
  hwf _ (lookupBlob_eq_some h)

theorem treeBlobs_honest (p : ChunkerParams) (t : FsTree) :
    ∀ e ∈ treeBlobs p t, e.1 = blobId e.2 := by
  intro e he
  simp only [treeBlobs, List.mem_map] at he
  obtain ⟨c, _, rfl⟩ := he
  rfl

theorem WfBlobs_backup (p : ChunkerParams) (t : FsTree) (r : EngineRepo)
    (hwf : WfBlobs r.blobs) : WfBlobs (backup p t r).1.blobs := by
  intro e he
  simp only [backup, List.mem_append, List.mem_filter] at he
  rcases he with he | ⟨he, _⟩
  · exact hwf e he
  · exact treeBlobs_honest p t e he

theorem backup_present (p : ChunkerParams) (t : FsTree) (r : EngineRepo) :
    ∀ e ∈ treeBlobs p t, ∃ e' ∈ (backup p t r).1.blobs, e'.1 = e.1 := by
  intro e he
  by_cases h : (lookupBlob r.blobs e.1).isSome
  · obtain ⟨e', he', h₁⟩ := lookupBlob_isSome.mp h
    refine ⟨e', ?_, h₁⟩
    simp only [backup, List.mem_append]
    exact Or.inl he'
  · have hnone : (lookupBlob r.blobs e.1).isNone = true := by
      rcases hl : lookupBlob r.blobs e.1 with _ | v
      · rfl
      · rw [hl] at h
        simp at h
    refine ⟨e, ?_, rfl⟩
    simp only [backup, List.mem_append, List.mem_filter]
    exact Or.inr ⟨he, hnone⟩

theorem restoreContent_map (r : EngineRepo) (hwf : WfBlobs r.blobs) :
    ∀ chs : List (List Nat),
      (∀ ch ∈ chs, ∃ e ∈ r.blobs, e.1 = blobId ch) →
      restoreContent r (chs.map blobId) = some chs.flatten := by
  intro chs
  induction chs with
  | nil =>
    intro _
    simp [restoreContent]
  | cons ch chs ih =>
    intro hpres
    have hsome : (lookupBlob r.blobs (blobId ch)).isSome :=
      lookupBlob_isSome.mpr (hpres ch (by simp))
    rcases hl : lookupBlob r.blobs (blobId ch) with _ | v
    · rw [hl] at hsome
      simp at hsome
    · have hv : ch = v := blobId_inj (lookupBlob_wf hwf hl)
      have ihh := ih (fun c hc => hpres c (List.mem_cons_of_mem _ hc))
      simp [restoreContent, hl, ihh, ← hv]

theorem backup_no_new_packs (p : ChunkerParams) (t : FsTree) (r₁ : EngineRepo)
    (h : ∀ e ∈ treeBlobs p t, ∃ e' ∈ r₁.blobs, e'.1 = e.1) :
    (backup p t r₁).1.packCount = r₁.packCount := by
  have hnew : (treeBlobs p t).filter
      (fun e => (lookupBlob r₁.blobs e.1).isNone) = [] := by
    rw [List.filter_eq_nil_iff]
    intro e he hn
    have hs := lookupBlob_isSome.mpr (h e he)
    rw [Option.isNone_iff_eq_none] at hn
    rw [hn] at hs
    simp at hs
  simp only [backup]
  rw [hnew]
  rfl

/-- C2: backup/restore and encrypt/decrypt are round-trips: for all file
content C, restore(backup(C)) == C bit-for-bit, and for all messages m
and any MasterKey, decrypt(encrypt(m)) == m. -/
theorem claim_C2_round_trips (p : ChunkerParams) (c : List Nat)
    (r : EngineRepo) (k : MasterKey) (m : List Nat) (hwf : WfBlobs r.blobs) :
    restoreContent (backupFile p c r).1 (backupFile p c r).2 = some c ∧
    decrypt k (encrypt k m) = some m := by
  constructor
  · have hwf' : WfBlobs (backup p (.file c) r).1.blobs :=
      WfBlobs_backup p _ r hwf
    have hpres : ∀ ch ∈ chunkContent p c,
        ∃ e ∈ (backup p (.file c) r).1.blobs, e.1 = blobId ch := by
      intro ch hch
      have hmem : (blobId ch, ch) ∈ treeBlobs p (.file c) := by
        simp only [treeBlobs, treeContents, List.mem_map]
        exact ⟨ch, hch, rfl⟩
      exact backup_present p (.file c) r _ hmem
    have hres := restoreContent_map (backup p (.file c) r).1 hwf'
      (chunkContent p c) hpres
    simpa [backupFile, fileChunkIds, chunkContent_flatten] using hres
  · exact decrypt_encrypt k m

/-- Witness for C2 at concrete inputs: content [1, 2, 3] into the empty
repository, message [7, 8] under key 5. -/
theorem claim_C2_witness :
    restoreContent (backupFile pW [1, 2, 3] repoW).1
        (backupFile pW [1, 2, 3] repoW).2 = some [1, 2, 3] ∧
    decrypt ⟨5⟩ (encrypt ⟨5⟩ [7, 8]) = some [7, 8] :=
  claim_C2_round_trips pW [1, 2, 3] repoW ⟨5⟩ [7, 8]
    (by intro e he; simp [repoW] at he)

/-- C3: backup is deduplication-idempotent: backing up the same unchanged
tree twice creates a second Snapshot whose root Tree id equals the
first's root Tree id, and writes zero new Pack objects. -/
theorem claim_C3_dedup_idempotence (p : ChunkerParams) (t : FsTree)
    (r : EngineRepo) :
    (backup p t (backup p t r).1).2 = (backup p t r).2 ∧
    (backup p t (backup p t r).1).1.snaps =
      (backup p t r).1.snaps ++ [(backup p t r).2] ∧
    (backup p t (backup p t r).1).1.packCount =
      (backup p t r).1.packCount := by
  refine ⟨rfl, rfl, ?_⟩
  exact backup_no_new_packs p t (backup p t r).1 (backup_present p t r)

theorem decrypt_encrypt_ne (k k' : MasterKey) (m : List Nat)
    (hne : k'.key ≠ k.key) : decrypt k' (encrypt k m) = none := by
  unfold decrypt encrypt
  rw [if_neg]
  intro hc
  simp only [macTag] at hc
  exact hne (Nat.add_left_cancel hc)

theorem tryUnlock_makeKeyRecord_same (M pw s : Nat) :
    tryUnlockRecord pw (makeKeyRecord M pw s) = some M := by
  unfold tryUnlockRecord
  simp only [makeKeyRecord]
  rw [decrypt_encrypt]

theorem tryUnlock_makeKeyRecord {pw' M pw s m : Nat}
    (h : tryUnlockRecord pw' (makeKeyRecord M pw s) = some m) : m = M := by
  by_cases hk : pw' = pw
  · subst hk
    rw [tryUnlock_makeKeyRecord_same] at h
    exact (Option.some.injEq _ _ ▸ h).symm
  · have hne : (kdf pw' s).key ≠ (kdf pw s).key := by
      simp only [kdf]
      intro hc
      exact hk (Nat.pair_eq_pair.mp hc).1
    unfold tryUnlockRecord at h
    simp only [makeKeyRecord] at h
    rw [decrypt_encrypt_ne _ _ _ hne] at h
    simp at h

theorem unlock_append_ok {pw M : Nat} {rs : List KeyRecord}
    (l : List KeyRecord) (h : unlock pw rs = .ok M) :
    unlock pw (rs ++ l) = .ok M := by
  induction rs with
  | nil =>
    rw [unlock] at h
    exact absurd h (by simp)
  | cons r rs ih =>
    rw [List.cons_append, unlock]
    rw [unlock] at h
    cases ht : tryUnlockRecord pw r with
    | some m =>
      rw [ht] at h
      simpa using h
    | none =>
      rw [ht] at h
      exact ih h

theorem unlock_authFailed_iff (pw : Nat) (rs : List KeyRecord) :
    unlock pw rs = .authenticationFailed ↔
      ∀ r ∈ rs, tryUnlockRecord pw r = none := by
  induction rs with
  | nil => simp [unlock]
  | cons r rs ih =>
    rw [unlock]
    cases ht : tryUnlockRecord pw r with
    | some m => simp [ht]
    | none => simp [ht, ih]

theorem unlock_append_single {M pw s : Nat} {rs : List KeyRecord}
    (hsm : SingleMaster M rs) :
    unlock pw (rs ++ [makeKeyRecord M pw s]) = .ok M := by
  induction rs with
  | nil =>
    rw [List.nil_append, unlock, tryUnlock_makeKeyRecord_same]
  | cons r rs ih =>
    rw [List.cons_append, unlock]
    cases ht : tryUnlockRecord pw r with
    | some m =>
      have hm : m = M := hsm r (by simp) pw m ht
      simp [hm]
    | none =>
      exact ih (fun r' hr' pw' m hm => hsm r' (List.mem_cons_of_mem _ hr') pw' m hm)

theorem unlock_keyRemove (pw : Nat) (recs : List KeyRecord) :
    unlock pw (keyRemove pw recs) = .authenticationFailed := by
  rw [unlock_authFailed_iff]
  intro r hr
  rw [keyRemove] at hr
  have hn := (List.mem_filter.mp hr).2
  rcases ht : tryUnlockRecord pw r with _ | m
  · rfl
  · rw [ht] at hn
    simp at hn

/-- C4: after key add with a second password, unlock with either password
yields the identical MasterKey; after key remove of a password, unlock
with that password fails with AuthenticationFailed; in general unlock
fails with AuthenticationFailed iff no Key record matches the supplied
password. -/
theorem claim_C4_key_management (M p₁ p₂ s₂ : Nat) (recs : List KeyRecord)
    (hsm : SingleMaster M recs) (h₁ : unlock p₁ recs = .ok M) :
    unlock p₁ (keyAdd M p₂ s₂ recs) = .ok M ∧
    unlock p₂ (keyAdd M p₂ s₂ recs) = .ok M ∧
    unlock p₁ (keyRemove p₁ recs) = .authenticationFailed ∧
    (∀ pw rs, unlock pw rs = .authenticationFailed ↔
      ∀ r ∈ rs, tryUnlockRecord pw r = none) :=
  ⟨unlock_append_ok _ h₁, unlock_append_single hsm,
   unlock_keyRemove p₁ recs, unlock_authFailed_iff⟩

/-- Witness for C4 at concrete inputs: master key 5, passwords 1 and 2. -/
theorem claim_C4_witness :
    unlock 1 (keyAdd 5 2 9 recsW) = .ok 5 ∧
    unlock 2 (keyAdd 5 2 9 recsW) = .ok 5 ∧
    unlock 1 (keyRemove 1 recsW) = .authenticationFailed := by
  have hsm : SingleMaster 5 recsW := by
    intro r hr pw m hm
    have hr' : r = makeKeyRecord 5 1 7 := by simpa [recsW] using hr
    rw [hr'] at hm
    exact tryUnlock_makeKeyRecord hm
  have h := claim_C4_key_management 5 1 2 9 recsW hsm (by decide)
  exact ⟨h.1, h.2.1, h.2.2.1⟩

theorem lookupIdx_isSome {idx : List (Nat × Nat)} {b : Nat} :
    (lookupIdx idx b).isSome ↔ ∃ e ∈ idx, e.1 = b := findPair_isSome

theorem lookupIdx_eq_some {idx : List (Nat × Nat)} {b pid : Nat}
    (h : lookupIdx idx b = some pid) : (b, pid) ∈ idx := findPair_eq_some h

theorem lookupIdx_eq_none {idx : List (Nat × Nat)} {b : Nat}
    (h : ∀ e ∈ idx, e.1 ≠ b) : lookupIdx idx b = none := findPair_eq_none h

theorem mem_liveOf {r : List Nat} {pk : Nat × List Nat} {b : Nat} :
    b ∈ liveOf r pk ↔ b ∈ pk.2 ∧ b ∈ r := by
  simp [liveOf, List.mem_filter]

theorem mem_pruneIndex {r : List Nat} {packs : List (Nat × List Nat)}
    {e : Nat × Nat} (h : e ∈ pruneIndex r packs) :
    ∃ pk ∈ packs, e.2 = pk.1 ∧ e.1 ∈ pk.2 ∧ e.1 ∈ r := by
  simp only [pruneIndex, List.mem_flatten, List.mem_map] at h
  obtain ⟨l, ⟨pk, hpk, rfl⟩, he⟩ := h
  simp only [List.mem_map] at he
  obtain ⟨b, hb, rfl⟩ := he
  obtain ⟨hb₁, hb₂⟩ := mem_liveOf.mp hb
  exact ⟨pk, hpk, rfl, hb₁, hb₂⟩

theorem mem_pruneIndex_of {r : List Nat} {packs : List (Nat × List Nat)}
    {pk : Nat × List Nat} {b : Nat} (hpk : pk ∈ packs) (hb : b ∈ pk.2)
    (hbr : b ∈ r) : (b, pk.1) ∈ pruneIndex r packs := by
  simp only [pruneIndex, List.mem_flatten]
  refine ⟨(liveOf r pk).map (fun b => (b, pk.1)), ?_, ?_⟩
  · exact List.mem_map.mpr ⟨pk, hpk, rfl⟩
  · exact List.mem_map.mpr ⟨b, mem_liveOf.mpr ⟨hb, hbr⟩, rfl⟩

theorem pruneNewPacks_covers (threshold : Nat) {r : List Nat}
    {packs : List (Nat × List Nat)} {pk : Nat × List Nat} {b : Nat}
    (hpk : pk ∈ packs) (hb : b ∈ pk.2) (hbr : b ∈ r) :
    ∃ pk' ∈ pruneNewPacks threshold r packs, b ∈ pk'.2 := by
  have hlive : b ∈ liveOf r pk := mem_liveOf.mpr ⟨hb, hbr⟩
  have hne : (!(liveOf r pk).isEmpty) = true := by
    cases hl : liveOf r pk with
    | nil => rw [hl] at hlive; simp at hlive
    | cons x xs => rfl
  have hsurv : pk ∈ pruneSurvivors r packs :=
    List.mem_filter.mpr ⟨hpk, hne⟩
  unfold pruneNewPacks
  by_cases hkeep : pruneKeepCond threshold r pk = true
  · have hk : pk ∈ (pruneSurvivors r packs).filter (pruneKeepCond threshold r) :=
      List.mem_filter.mpr ⟨hsurv, hkeep⟩
    by_cases hemp : ((pruneSurvivors r packs).filter
        (fun pk => !pruneKeepCond threshold r pk)).isEmpty = true
    · rw [if_pos hemp]
      exact ⟨pk, hk, hb⟩
    · rw [if_neg hemp]
      exact ⟨pk, List.mem_append_left _ hk, hb⟩
  · have hrep : pk ∈ (pruneSurvivors r packs).filter
        (fun pk => !pruneKeepCond threshold r pk) :=
      List.mem_filter.mpr ⟨hsurv, by simp [hkeep]⟩
    have hemp : ¬((pruneSurvivors r packs).filter
        (fun pk => !pruneKeepCond threshold r pk)).isEmpty = true := by
      intro hemp
      rw [List.isEmpty_iff] at hemp
      rw [hemp] at hrep
      simp at hrep
    rw [if_neg hemp]
    refine ⟨((packs.map Prod.fst).foldr Nat.max 0 + 1,
      (((pruneSurvivors r packs).filter
        (fun pk => !pruneKeepCond threshold r pk)).map (liveOf r)).flatten),
      List.mem_append_right _ (by simp), ?_⟩
    simp only [List.mem_flatten]
    exact ⟨liveOf r pk, List.mem_map.mpr ⟨pk, hrep, rfl⟩, hlive⟩

theorem blobOk_elim {st : PruneState} {b : Nat} (h : blobOk st b = true) :
    ∃ pk ∈ st.packs, b ∈ pk.2 := by
  unfold blobOk at h
  rcases hl : lookupIdx st.index b with _ | pid
  · rw [hl] at h
    simp at h
  · rw [hl] at h
    unfold resolves at h
    rw [List.any_eq_true] at h
    obtain ⟨pk, hpk, hcond⟩ := h
    rw [Bool.and_eq_true] at hcond
    exact ⟨pk, hpk, List.elem_iff.mp hcond.2⟩

theorem resolves_of {packs : List (Nat × List Nat)} {pk : Nat × List Nat}
    {b : Nat} (hpk : pk ∈ packs) (hb : b ∈ pk.2) :
    resolves packs b pk.1 = true := by
  unfold resolves
  rw [List.any_eq_true]
  refine ⟨pk, hpk, ?_⟩
  rw [Bool.and_eq_true]
  exact ⟨by simp, List.elem_iff.mpr hb⟩

theorem prune_blobOk (threshold : Nat) {st : PruneState} {b : Nat}
    (hb : b ∈ reachableBlobs st) (hok : blobOk st b = true) :
    blobOk (prune threshold st) b = true := by
  obtain ⟨pk, hpk, hbpk⟩ := blobOk_elim hok
  obtain ⟨pk', hpk', hbpk'⟩ := pruneNewPacks_covers threshold hpk hbpk hb
  have hentry : (b, pk'.1) ∈ (prune threshold st).index :=
    mem_pruneIndex_of hpk' hbpk' hb
  have hsome : (lookupIdx (prune threshold st).index b).isSome :=
    lookupIdx_isSome.mpr ⟨(b, pk'.1), hentry, rfl⟩
  rcases hl : lookupIdx (prune threshold st).index b with _ | pid
  · rw [hl] at hsome
    simp at hsome
  · have hmem : (b, pid) ∈ (prune threshold st).index := lookupIdx_eq_some hl
    obtain ⟨pk'', hpk'', h₂, h₁, _⟩ := mem_pruneIndex hmem
    unfold blobOk
    rw [hl]
    simp only at h₂
    rw [h₂]
    exact resolves_of hpk'' h₁

/-- C1: prune never deletes a reachable blob: on a consistent repository
state, check run immediately after prune reports zero missing-blob errors
for the (unchanged) live Snapshots, and every blob referenced only by
deleted Snapshots is absent from the post-prune Index. -/
theorem claim_C1_prune_safety (threshold : Nat) (st : PruneState)
    (hwf : ∀ b ∈ reachableBlobs st, blobOk st b = true) :
    checkErrors (prune threshold st) = [] ∧
    (prune threshold st).liveSnaps = st.liveSnaps ∧
    (∀ b, b ∈ deadBlobs st → b ∉ reachableBlobs st →
      lookupIdx (prune threshold st).index b = none) := by
  refine ⟨?_, rfl, ?_⟩
  · unfold checkErrors
    rw [List.filter_eq_nil_iff]
    intro b hb hneg
    have hb' : b ∈ reachableBlobs st := hb
    have := prune_blobOk threshold hb' (hwf b hb')
    rw [this] at hneg
    simp at hneg
  · intro b _ hnr
    refine lookupIdx_eq_none ?_
    intro e he hne
    obtain ⟨pk, _, _, _, her⟩ := mem_pruneIndex he
    rw [hne] at her
    exact hnr her

/-- Witness for C1 at a concrete consistent state: live snapshot
referencing blobs 1 and 2, deleted snapshot referencing 2 and 3; blob 3
(referenced only by the deleted snapshot) leaves the Index, and check is
clean after prune with threshold 50. -/
theorem claim_C1_witness :
    checkErrors (prune 50 stW) = [] ∧
    (prune 50 stW).liveSnaps = stW.liveSnaps ∧
    lookupIdx (prune 50 stW).index 3 = none := by
  have h := claim_C1_prune_safety 50 stW (by decide)
  exact ⟨h.1, h.2.1, h.2.2 3 (by decide) (by decide)⟩

/-- C5: for every subcommand other than init, self-update and
completions, `execute` dispatches the engine operation only immediately
after a successful `Repository::open`; if open fails, no engine operation
runs. -/
theorem claim_C5_open_before_dispatch (w : World) (cli cfg : GlobalOpts)
    (cmd : Cmd) (h₁ : cmd ≠ Cmd.init) (h₂ : cmd ≠ Cmd.selfUpdate)
    (h₃ : cmd ≠ Cmd.completions) :
    (∀ c s, Ev.engineRun c s ∈ (execute w cli cfg cmd).2.1 →
      ∃ t, (execute w cli cfg cmd).2.1 = t ++ [Ev.openRepo, Ev.engineRun c s] ∧
        w.openRes = Except.ok ()) ∧
    (∀ e, w.openRes = Except.error e →
      ∀ c s, Ev.engineRun c s ∉ (execute w cli cfg cmd).2.1) := by
  rcases hcl : w.configLoad with e₀ | u₀ <;>
    rcases hlg : w.loggerInit with e₁ | u₁ <;>
      rcases hrm : w.repoMerge with e₂ | u₂ <;>
        rcases hrn : w.repoNew with e₃ | u₃ <;>
          rcases hop : w.openRes with e₄ | u₄ <;>
            simp only [execute, hcl, hlg, hrm, hrn, hop, if_neg h₁, if_neg h₂,
              if_neg h₃] <;>
            refine ⟨fun c s hmem => ?_, fun e he c s hmem => ?_⟩ <;>
            first
              | (exfalso; revert hmem; simp; done)
              | (simp_all; done)
              | (simp at hmem
                 obtain ⟨hc, hs⟩ := hmem
                 subst hc
                 subst hs
                 refine ⟨[Ev.configLoad, Ev.loggerInit, Ev.repoMerge,
                   Ev.repoNew], ?_, ?_⟩
                 · simp
                 · trivial)

/-- Witness for C5 at a concrete world in which open fails with error 42:
the check engine operation is not dispatched. -/
theorem claim_C5_witness :
    Ev.engineRun Cmd.check false ∉
      (execute wOpenFail cliBase cliBase Cmd.check).2.1 :=
  (claim_C5_open_before_dispatch wOpenFail cliBase cliBase Cmd.check
    (by decide) (by decide) (by decide)).2 42 rfl Cmd.check false

/-- C6: whenever a subcommand is dispatched to its engine operation, the
result of `execute` is exactly the engine operation's result — errors
propagate and Ok is returned only on success. -/
theorem claim_C6_error_propagation (w : World) (cli cfg : GlobalOpts)
    (cmd c : Cmd) (s : Bool)
    (h : Ev.engineRun c s ∈ (execute w cli cfg cmd).2.1) :
    (execute w cli cfg cmd).1 =
      w.engineRes c (dryFlag c (GlobalOpts.mergeOpts cli cfg)) := by
  by_cases h₂ : cmd = Cmd.selfUpdate
  · subst h₂
    rcases hcl : w.configLoad with e₀ | u₀ <;>
      rcases hlg : w.loggerInit with e₁ | u₁ <;>
        rcases hsu : w.selfUpdateRes with e₂ | u₂ <;>
          simp [execute, hcl, hlg, hsu] at h
  · by_cases h₃ : cmd = Cmd.completions
    · subst h₃
      rcases hcl : w.configLoad with e₀ | u₀ <;>
        rcases hlg : w.loggerInit with e₁ | u₁ <;>
          simp [execute, hcl, hlg] at h
    · by_cases h₁ : cmd = Cmd.init
      · subst h₁
        rcases hcl : w.configLoad with e₀ | u₀ <;>
          rcases hlg : w.loggerInit with e₁ | u₁ <;>
            rcases hrm : w.repoMerge with e₂ | u₂ <;>
              rcases hrn : w.repoNew with e₃ | u₃ <;>
                rcases hci : w.configIds with e₄ | ids <;>
                  rcases hpw : w.password with e₅ | pw <;>
                    simp [execute, hcl, hlg, hrm, hrn, hci, hpw] at h
      · rcases hcl : w.configLoad with e₀ | u₀ <;>
          rcases hlg : w.loggerInit with e₁ | u₁ <;>
            rcases hrm : w.repoMerge with e₂ | u₂ <;>
              rcases hrn : w.repoNew with e₃ | u₃ <;>
                rcases hop : w.openRes with e₄ | u₄ <;>
                  simp only [execute, hcl, hlg, hrm, hrn, hop, if_neg h₁,
                    if_neg h₂, if_neg h₃] at h ⊢ <;>
                  first
                    | (simp at h; done)
                    | (simp at h
                       obtain ⟨hc, hs⟩ := h
                       subst hc
                       rfl)

/-- Witness for C6 at a concrete world in which the prune engine
operation fails with error 7. -/
theorem claim_C6_witness :
    (execute wEngineFail cliDry cliBase Cmd.prune).1 =
      wEngineFail.engineRes Cmd.prune
        (dryFlag Cmd.prune (GlobalOpts.mergeOpts cliDry cliBase)) :=
  claim_C6_error_propagation wEngineFail cliDry cliBase Cmd.prune Cmd.prune
    true (by decide)

/-- C8: the self-update and completions subcommands return before the
Repository is constructed: no repository-option merge, no
`Repository::new`, no Config listing, no password read, no open, no init
and no engine dispatch appears in the trace. -/
theorem claim_C8_no_repository (w : World) (cli cfg : GlobalOpts) (cmd : Cmd)
    (h : cmd = Cmd.selfUpdate ∨ cmd = Cmd.completions) :
    Ev.repoNew ∉ (execute w cli cfg cmd).2.1 ∧
    Ev.repoMerge ∉ (execute w cli cfg cmd).2.1 ∧
    Ev.listConfig ∉ (execute w cli cfg cmd).2.1 ∧
    Ev.passwordRead ∉ (execute w cli cfg cmd).2.1 ∧
    Ev.openRepo ∉ (execute w cli cfg cmd).2.1 ∧
    (∀ ids, Ev.initRun ids ∉ (execute w cli cfg cmd).2.1) ∧
    (∀ c s, Ev.engineRun c s ∉ (execute w cli cfg cmd).2.1) := by
  rcases h with rfl | rfl <;>
    rcases hcl : w.configLoad with e₀ | u₀ <;>
      rcases hlg : w.loggerInit with e₁ | u₁ <;>
        rcases hsu : w.selfUpdateRes with e₂ | u₂ <;>
          simp [execute, hcl, hlg, hsu]

/-- Witness for C8: self-update in the all-success world never constructs
the Repository. -/
theorem claim_C8_witness :
    Ev.repoNew ∉ (execute w0 cliBase cliBase Cmd.selfUpdate).2.1 :=
  (claim_C8_no_repository w0 cliBase cliBase Cmd.selfUpdate (Or.inl rfl)).1

/-- C10: init runs after `Repository::new` and the Config-id listing and
instead of `Repository::open`: the trace ends with the init call carrying
exactly the listed Config ids, the result is init's result, and open is
never called. -/
theorem claim_C10_init_without_open (w : World) (cli cfg : GlobalOpts)
    (ids : List Nat) (pw : Nat) (hcl : w.configLoad = .ok ())
    (hlg : w.loggerInit = .ok ()) (hrm : w.repoMerge = .ok ())
    (hrn : w.repoNew = .ok ()) (hci : w.configIds = .ok ids)
    (hpw : w.password = .ok pw) :
    (execute w cli cfg Cmd.init).2.1 =
      [Ev.configLoad, Ev.loggerInit, Ev.repoMerge, Ev.repoNew, Ev.listConfig,
       Ev.passwordRead, Ev.initRun ids] ∧
    (execute w cli cfg Cmd.init).1 = w.initRes ∧
    Ev.openRepo ∉ (execute w cli cfg Cmd.init).2.1 := by
  refine ⟨?_, ?_, ?_⟩ <;> simp [execute, hcl, hlg, hrm, hrn, hci, hpw]

/-- Witness for C10 in the all-success world, whose backend lists the one
existing Config id 3. -/
theorem claim_C10_witness :
    (execute w0 cliBase cliBase Cmd.init).2.1 =
      [Ev.configLoad, Ev.loggerInit, Ev.repoMerge, Ev.repoNew, Ev.listConfig,
       Ev.passwordRead, Ev.initRun [3]] ∧
    (execute w0 cliBase cliBase Cmd.init).1 = w0.initRes ∧
    Ev.openRepo ∉ (execute w0 cliBase cliBase Cmd.init).2.1 :=
  claim_C10_init_without_open w0 cliBase cliBase [3] 0 rfl rfl rfl rfl rfl rfl

/-- C9: command-line/environment values take precedence over the
config-file profile: boolean flags merge with overwrite-false (the config
file can enable a flag the command line left false, never disable one set
true), and optional settings already set on the command line are not
replaced. -/
theorem claim_C9_merge_precedence (cli cfg : GlobalOpts) :
    (cli.dry_run = true → (GlobalOpts.mergeOpts cli cfg).dry_run = true) ∧
    (cli.dry_run = false →
      (GlobalOpts.mergeOpts cli cfg).dry_run = cfg.dry_run) ∧
    (cli.no_progress = true →
      (GlobalOpts.mergeOpts cli cfg).no_progress = true) ∧
    (cli.no_progress = false →
      (GlobalOpts.mergeOpts cli cfg).no_progress = cfg.no_progress) ∧
    (∀ v, cli.log_level = some v →
      (GlobalOpts.mergeOpts cli cfg).log_level = some v) ∧
    (cli.log_level = none →
      (GlobalOpts.mergeOpts cli cfg).log_level = cfg.log_level) ∧
    (∀ v, cli.log_file = some v →
      (GlobalOpts.mergeOpts cli cfg).log_file = some v) ∧
    (cli.log_file = none →
      (GlobalOpts.mergeOpts cli cfg).log_file = cfg.log_file) ∧
    (∀ v, cli.progress_interval = some v →
      (GlobalOpts.mergeOpts cli cfg).progress_interval = some v) ∧
    (cli.progress_interval = none →
      (GlobalOpts.mergeOpts cli cfg).progress_interval = cfg.progress_interval)
    := by
  refine ⟨?_, ?_, ?_, ?_, ?_, ?_, ?_, ?_, ?_, ?_⟩ <;>
    first
      | (intro h; simp [GlobalOpts.mergeOpts, h])
      | (intro v h; simp [GlobalOpts.mergeOpts, h])

/-- Witness for C9 at concrete options: the command line sets dry-run and
log level 3; the config file tries dry-run off, log level 5, a log file,
and no-progress — the command line wins where set, the config file fills
the rest. -/
theorem claim_C9_witness :
    (GlobalOpts.mergeOpts cliW cfgW).dry_run = true ∧
    (GlobalOpts.mergeOpts cliW cfgW).log_level = some 3 ∧
    (GlobalOpts.mergeOpts cliW cfgW).log_file = cfgW.log_file ∧
    (GlobalOpts.mergeOpts cliW cfgW).no_progress = cfgW.no_progress := by
  have h := claim_C9_merge_precedence cliW cfgW
  exact ⟨h.1 rfl, h.2.2.2.2.1 3 rfl, h.2.2.2.2.2.2.2.1 rfl, h.2.2.2.1 rfl⟩

/-- Counterexample to C7 as stated: two runs of the check engine
operation with identical explicit per-call inputs (same world — hence the
same repository and subcommand options — and the same dry-run flag;
`check::execute(repo, opts)` receives no progress configuration at all)
behave differently: with the no-progress knob unset the engine run shows
progress and with it set it does not, because the knob reaches the engine
through the process-wide NO_PROGRESS static, not through a per-call
argument.  The returned results are nevertheless equal. -/
theorem claim_C7_counterexample :
    dryFlag Cmd.check (GlobalOpts.mergeOpts cliBase cliBase) =
      dryFlag Cmd.check (GlobalOpts.mergeOpts cliNP cliBase) ∧
    (execute w0 cliBase cliBase Cmd.check).1 =
      (execute w0 cliNP cliBase Cmd.check).1 ∧
    Ev.engineRun Cmd.check true ∈ (execute w0 cliBase cliBase Cmd.check).2.1 ∧
    Ev.engineRun Cmd.check false ∈ (execute w0 cliNP cliBase Cmd.check).2.1 ∧
    (execute w0 cliBase cliBase Cmd.check).2.2 ≠
      (execute w0 cliNP cliBase Cmd.check).2.2 := by
  refine ⟨rfl, rfl, ?_, ?_, ?_⟩ <;> decide

/-- C7 (amended): the engine operation's returned result depends only on
the explicitly passed configuration — for two command lines differing
only in the progress knobs (no-progress, progress interval), every
subcommand's result is identical; only the progress display read from the
process-wide statics differs. -/
theorem claim_C7_results_independent (w : World) (cli₁ cli₂ cfg : GlobalOpts)
    (cmd : Cmd) (hd : cli₁.dry_run = cli₂.dry_run)
    (hl : cli₁.log_level = cli₂.log_level)
    (hf : cli₁.log_file = cli₂.log_file) :
    (execute w cli₁ cfg cmd).1 = (execute w cli₂ cfg cmd).1 := by
  have hdf : dryFlag cmd (GlobalOpts.mergeOpts cli₁ cfg) =
      dryFlag cmd (GlobalOpts.mergeOpts cli₂ cfg) := by
    have hdr : (GlobalOpts.mergeOpts cli₁ cfg).dry_run =
        (GlobalOpts.mergeOpts cli₂ cfg).dry_run := by
      simp [GlobalOpts.mergeOpts, hd]
    cases cmd <;> simp [dryFlag, hdr]
  by_cases h₂ : cmd = Cmd.selfUpdate
  · subst h₂
    rcases hcl : w.configLoad with e₀ | u₀ <;>
      rcases hlg : w.loggerInit with e₁ | u₁ <;>
        rcases hsu : w.selfUpdateRes with e₂ | u₂ <;>
          simp [execute, hcl, hlg, hsu]
  · by_cases h₃ : cmd = Cmd.completions
    · subst h₃
      rcases hcl : w.configLoad with e₀ | u₀ <;>
        rcases hlg : w.loggerInit with e₁ | u₁ <;>
          simp [execute, hcl, hlg]
    · by_cases h₁ : cmd = Cmd.init
      · subst h₁
        rcases hcl : w.configLoad with e₀ | u₀ <;>
          rcases hlg : w.loggerInit with e₁ | u₁ <;>
            rcases hrm : w.repoMerge with e₂ | u₂ <;>
              rcases hrn : w.repoNew with e₃ | u₃ <;>
                rcases hci : w.configIds with e₄ | ids <;>
                  rcases hpw : w.password with e₅ | pw <;>
                    simp [execute, hcl, hlg, hrm, hrn, hci, hpw]
      · rcases hcl : w.configLoad with e₀ | u₀ <;>
          rcases hlg : w.loggerInit with e₁ | u₁ <;>
            rcases hrm : w.repoMerge with e₂ | u₂ <;>
              rcases hrn : w.repoNew with e₃ | u₃ <;>
                rcases hop : w.openRes with e₄ | u₄ <;>
                  simp only [execute, hcl, hlg, hrm, hrn, hop, if_neg h₁,
                    if_neg h₂, if_neg h₃] <;>
                  first
                    | rfl
                    | rw [hdf]

/-- Witness for C7 (amended): the check results coincide for the two
command lines of the counterexample. -/
theorem claim_C7_witness :
    (execute w0 cliBase cliBase Cmd.check).1 =
      (execute w0 cliNP cliBase Cmd.check).1 :=
  claim_C7_results_independent w0 cliBase cliNP cliBase Cmd.check rfl rfl rfl

end Rustic
